import Mathlib

/-!
Verification of the schema-to-type-model resolver of `slack-rs-api`
(`codegen/src/json_schema.rs`, `PropType::from_schema`).

The Rust `HashMap<String, JsonSchema>` fields (`properties`, `definitions`,
`patternProperties`) are embedded as association lists `List (String × JsonSchema)`;
the list order models the map's iteration order, which in Rust is an arbitrary,
seed-dependent order over the same set of entries.  Rust panics (`panic!`,
`unwrap`, `expect`) are embedded as `Except.error` with the panic message;
`println!` diagnostics are collected in an output list in emission order.
-/

/-- The deserialized schema document (`struct JsonSchema` in the source).
Field names follow the source; `ty` is the serde-renamed `"type"` field,
`definition_ref` is `"$ref"`, `one_of` is `"oneOf"`. -/
inductive JsonSchema where
  | mk
    (id : Option String)
    (schema_ref : Option String)
    (description : Option String)
    (ty : Option String)
    (properties : Option (List (String × JsonSchema)))
    (required : Option (List String))
    (definitions : Option (List (String × JsonSchema)))
    (items : Option JsonSchema)
    (pattern_properties : Option (List (String × JsonSchema)))
    (additional_properties : Bool)
    (definition_ref : Option String)
    (one_of : Option (List JsonSchema))

def JsonSchema.id : JsonSchema → Option String
  | .mk i _ _ _ _ _ _ _ _ _ _ _ => i

def JsonSchema.schema_ref : JsonSchema → Option String
  | .mk _ sr _ _ _ _ _ _ _ _ _ _ => sr

def JsonSchema.description : JsonSchema → Option String
  | .mk _ _ d _ _ _ _ _ _ _ _ _ => d

def JsonSchema.ty : JsonSchema → Option String
  | .mk _ _ _ t _ _ _ _ _ _ _ _ => t

def JsonSchema.properties : JsonSchema → Option (List (String × JsonSchema))
  | .mk _ _ _ _ p _ _ _ _ _ _ _ => p

def JsonSchema.required : JsonSchema → Option (List String)
  | .mk _ _ _ _ _ r _ _ _ _ _ _ => r

def JsonSchema.definitions : JsonSchema → Option (List (String × JsonSchema))
  | .mk _ _ _ _ _ _ d _ _ _ _ _ => d

def JsonSchema.items : JsonSchema → Option JsonSchema
  | .mk _ _ _ _ _ _ _ i _ _ _ _ => i

def JsonSchema.pattern_properties : JsonSchema → Option (List (String × JsonSchema))
  | .mk _ _ _ _ _ _ _ _ pp _ _ _ => pp

def JsonSchema.additional_properties : JsonSchema → Bool
  | .mk _ _ _ _ _ _ _ _ _ ap _ _ => ap

def JsonSchema.definition_ref : JsonSchema → Option String
  | .mk _ _ _ _ _ _ _ _ _ _ dr _ => dr

def JsonSchema.one_of : JsonSchema → Option (List JsonSchema)
  | .mk _ _ _ _ _ _ _ _ _ _ _ oo => oo

mutual
/-- Output type model (`enum PropType` in the source). -/
inductive PropType where
  | Str : PropType
  | Int : PropType
  | Num : PropType
  | Bool : PropType
  | Ref : String → PropType
  | Obj : JsonObject → PropType
  | Arr : PropType → PropType
  | Map : PropType → PropType
  | Optional : PropType → PropType
  | Enum : JsonEnum → PropType
  | Null : PropType

/-- `struct JsonObject` in the source: a named structure with ordered fields. -/
inductive JsonObject where
  | mk : String → List JsonObjectFieldInfo → JsonObject

/-- `struct JsonObjectFieldInfo` in the source: internal field name, resolved
type, and the optional serde rename recording the original property name. -/
inductive JsonObjectFieldInfo where
  | mk : String → PropType → Option String → JsonObjectFieldInfo

/-- `struct JsonEnum` in the source: a named tagged union with ordered variants. -/
inductive JsonEnum where
  | mk : String → List JsonEnumVariant → JsonEnum

/-- `struct JsonEnumVariant` in the source: variant name and inner type. -/
inductive JsonEnumVariant where
  | mk : String → PropType → JsonEnumVariant
end

def JsonObject.name : JsonObject → String
  | .mk n _ => n

def JsonObject.fields : JsonObject → List JsonObjectFieldInfo
  | .mk _ fs => fs

def JsonObjectFieldInfo.name : JsonObjectFieldInfo → String
  | .mk n _ _ => n

def JsonObjectFieldInfo.ty : JsonObjectFieldInfo → PropType
  | .mk _ t _ => t

def JsonObjectFieldInfo.rename : JsonObjectFieldInfo → Option String
  | .mk _ _ r => r

def JsonEnum.name : JsonEnum → String
  | .mk n _ => n

def JsonEnum.variants : JsonEnum → List JsonEnumVariant
  | .mk _ vs => vs

def JsonEnumVariant.name : JsonEnumVariant → String
  | .mk n _ => n

def JsonEnumVariant.inner : JsonEnumVariant → PropType
  | .mk _ t => t

/-- Alias so that `Bool` stays visible inside the `PropType` namespace, where
the constructor `PropType.Bool` shadows it. -/
abbrev BoolT := Bool

/-- True exactly for `PropType::Optional(_)` nodes. -/
def PropType.isOptional : PropType → BoolT
  | .Optional _ => true
  | _ => false

/-- Modelled from the external `Inflector` crate (v0.11) used by the source:
the character loop of `to_case_camel_like` with the `to_pascal_case` options
(`new_word = true`, `last_char = ' '`, `first_word = false`, no separator
injection, not inverted).  State: remaining characters, `new_word` flag,
`last_char`, `found_real_char` flag, accumulated result.  Any non-alphanumeric
character is a word separator; a word's first character is uppercased, later
characters are lowercased; digits are kept and start a new word after them. -/
def pascalGo : List Char → Bool → Char → Bool → String → String
  | [], _, _, _, acc => acc
  | c :: rest, newWord, lastChar, foundReal, acc =>
    if !c.isAlphanum && foundReal then
      pascalGo rest true lastChar foundReal acc
    else if !foundReal && !c.isAlphanum then
      pascalGo rest newWord lastChar foundReal acc
    else if c.isDigit then
      pascalGo rest true lastChar true (acc.push c)
    else if newWord || (lastChar.isLower && c.isUpper) then
      pascalGo rest false lastChar true (acc.push c.toUpper)
    else
      pascalGo rest newWord c true (acc.push c.toLower)

/-- Modelled from the external `Inflector` crate: `to_pascal_case`
(trailing whitespace is trimmed before the character loop). -/
def toPascalCase (s : String) : String :=
  pascalGo ((s.data.reverse.dropWhile Char.isWhitespace).reverse) true ' ' false ""

/-- Modelled from the external `Inflector` crate: `to_singular`, restricted to
the regular English pluralization rules (the source only applies it to plural
context names such as `"channels"`); irregular and uncountable words are not
needed by any theorem below, which treat this function as opaque. -/
def toSingular (s : String) : String :=
  match s.data.reverse with
  | 's' :: 'e' :: 'i' :: rest => String.mk (('y' :: rest).reverse)
  | 's' :: 's' :: _ => s
  | 's' :: rest => String.mk rest.reverse
  | _ => s

/-- Text after the last occurrence of the two-character pattern `"#/"` when it
occurs (Rust `split("#/").last()` on the character list), `none` otherwise. -/
def afterRefAux : List Char → Option (List Char)
  | [] => none
  | '#' :: '/' :: rest =>
    some (match afterRefAux rest with
          | some r => r
          | none => rest)
  | _ :: rest => afterRefAux rest

/-- Rust `s.split("#/").last().unwrap()`: the text after the last occurrence of
`"#/"`, or the whole string when the pattern does not occur. -/
def afterRefSplit (cs : List Char) : List Char :=
  (afterRefAux cs).getD cs

/-- The `$ref` name computation of the source (`from_schema`, reference case):
`def.split("#/").last().and_then(|x| x.split('.').next()).unwrap().to_pascal_case()`.
Rust `split` with pattern `"#/"` keeps the text after the last `"#/"`
occurrence as its last piece, and `split('.').next()` keeps the text before
the first `'.'`; both iterators are never empty, so the `unwrap` cannot fail. -/
def refName (ref : String) : String :=
  toPascalCase (String.mk ((afterRefSplit ref.data).takeWhile (fun c => c != '.')))

/-- Name of the field the declared property resolves to, together with the
serde rename: the source substitutes `ty` for the reserved word `type` and
`slf` for `self`, recording the original name. -/
def fieldNameRename (origName : String) : String × Option String :=
  if origName = "type" then ("ty", some "type")
  else if origName = "self" then ("slf", some "self")
  else (origName, none)

mutual
/-- The resolver `PropType::from_schema(schema, name)` of the source.  Returns
the resolved type together with the list of `println!` diagnostics in emission
order; a Rust panic (`panic!`, `unwrap`, `expect`) becomes `Except.error` with
the panic message. -/
def fromSchema : JsonSchema → String → Except String (PropType × List String)
  | .mk _ _ _ ty props req _ items pp _ dref oneOf, name =>
    match dref with
    | some ref => .ok (.Ref (refName ref), [])
    | none =>
      match oneOf with
      | some branches =>
        match fromSchemaVariants name branches with
        | .error e => .error e
        | .ok (vs, d) => .ok (.Enum (.mk name vs), d)
      | none =>
        match ty with
        | some "boolean" => .ok (.Bool, [])
        | some "string" => .ok (.Str, [])
        | some "integer" => .ok (.Int, [])
        | some "number" => .ok (.Num, [])
        | some "null" => .ok (.Null, [])
        | some "array" =>
          match items with
          | some itemSchema =>
            match fromSchema itemSchema (toSingular name) with
            | .error e => .error e
            | .ok (sub, d) => .ok (.Arr sub, d)
          | none => .error (toSingular name ++ " is an array but no schema is set for items")
        | some "object" =>
          match pp with
          | some ppEntries =>
            match ppEntries with
            | [] => .error "called `Option::unwrap()` on a `None` value"
            | (_, subSchema) :: _ =>
              match fromSchema subSchema name with
              | .error e => .error e
              | .ok (sub, d) => .ok (.Map sub, d)
          | none =>
            match props with
            | none => .error "Failed to get sub object for object"
            | some p =>
              match fromSchemaFields name req p with
              | .error e => .error e
              | .ok (fs, d) =>
                .ok (.Obj (.mk name fs),
                  (if p.isEmpty then
                    [name ++ " is an object but has no properties. Likely an error."]
                  else []) ++ d)
        | some other => .error ("Unknown JSON type: Some(\"" ++ other ++ "\") for " ++ name)
        | none => .error ("Unknown JSON type: None for " ++ name)

/-- The oneOf loop of `from_schema`: for each branch in declared order,
synthesize `variant_name = name + branch.id.unwrap().to_pascal_case()` (a
branch without an `id` panics the `unwrap`), resolve the branch under the
variant name, and collect the variants. -/
def fromSchemaVariants : String → List JsonSchema → Except String (List JsonEnumVariant × List String)
  | _, [] => .ok ([], [])
  | name, o :: rest =>
    match o.id with
    | none => .error "called `Option::unwrap()` on a `None` value"
    | some branchId =>
      let variantName := name ++ toPascalCase branchId
      match fromSchema o variantName with
      | .error e => .error e
      | .ok (inner, d₁) =>
        match fromSchemaVariants name rest with
        | .error e => .error e
        | .ok (vs, d₂) => .ok (.mk variantName inner :: vs, d₁ ++ d₂)

/-- The properties loop of `from_schema`'s object case: for each declared
property `(orig_name, p)` in iteration order, substitute a safe field name for
reserved words, resolve the property under `name + orig_name.to_pascal_case()`,
and wrap the result in `Optional` unless the required list exists and contains
`orig_name`. -/
def fromSchemaFields : String → Option (List String) → List (String × JsonSchema) →
    Except String (List JsonObjectFieldInfo × List String)
  | _, _, [] => .ok ([], [])
  | name, req, (origName, p) :: rest =>
    let fr := fieldNameRename origName
    match fromSchema p (name ++ toPascalCase origName) with
    | .error e => .error e
    | .ok (ty₀, d₁) =>
      let ty :=
        match req with
        | some reqList => if reqList.contains origName then ty₀ else .Optional ty₀
        | none => .Optional ty₀
      match fromSchemaFields name req rest with
      | .error e => .error e
      | .ok (fs, d₂) => .ok (.mk fr.1 ty fr.2 :: fs, d₁ ++ d₂)
end

/-- Whether a declared property counts as required: the required list exists
and contains the property's original name (the source wraps in `Optional`
exactly when this is false). -/
def isRequired (req : Option (List String)) (origName : String) : BoolT :=
  match req with
  | some reqList => reqList.contains origName
  | none => false

/-- A bare string schema: the document `\x7b"type": "string"\x7d`. -/
def exStr : JsonSchema :=
  .mk none none none (some "string") none none none none none false none none

/-- A bare integer schema. -/
def exInt : JsonSchema :=
  .mk none none none (some "integer") none none none none none false none none

/-- Object schema with string properties `a` and `b` and required list `["a"]`. -/
def exObjReq : JsonSchema := .mk none none none (some "object")
  (some [("a", exStr), ("b", exStr)]) (some ["a"]) none none none false none none

/-- Schema carrying only the reference `#/definitions/house_pet`. -/
def exRefHousePet : JsonSchema := .mk none none none none none none none none none false
  (some "#/definitions/house_pet") none

/-- Schema carrying a reference together with a oneOf list, a declared type,
properties and items, to exercise the dispatch priority. -/
def exRefEverything : JsonSchema := .mk none none none (some "object")
  (some [("a", exStr)]) none none (some exStr) none false (some "#/definitions/user")
  (some [exStr])

/-- oneOf branch with id `foo_bar` and type string. -/
def exBranchFooBar : JsonSchema :=
  .mk (some "foo_bar") none none (some "string") none none none none none false none none

/-- oneOf branch with id `baz` and type integer. -/
def exBranchBaz : JsonSchema :=
  .mk (some "baz") none none (some "integer") none none none none none false none none

/-- oneOf branch with no id. -/
def exBranchNoId : JsonSchema :=
  .mk none none none (some "string") none none none none none false none none

/-- Schema with a two-branch oneOf, both branches carrying ids. -/
def exOneOf : JsonSchema := .mk none none none none none none none none none false none
  (some [exBranchFooBar, exBranchBaz])

/-- Schema with a oneOf whose second branch lacks an id. -/
def exOneOfNoId : JsonSchema := .mk none none none none none none none none none false none
  (some [exBranchFooBar, exBranchNoId])

/-- Array schema with string items. -/
def exArr : JsonSchema :=
  .mk none none none (some "array") none none none (some exStr) none false none none

/-- Array schema without items. -/
def exArrNoItems : JsonSchema :=
  .mk none none none (some "array") none none none none none false none none

/-- The schema of the reserved-word test: an object with the single property
`type` of type string, required list `["type"]`. -/
def c6Schema : JsonSchema := .mk none none none (some "object")
  (some [("type", exStr)]) (some ["type"]) none none none false none none

/-- Object schema with a present but empty properties map. -/
def exEmptyObj : JsonSchema :=
  .mk none none none (some "object") (some []) none none none none false none none

/-- Object schema whose properties field is entirely absent. -/
def exNoProps : JsonSchema :=
  .mk none none none (some "object") none none none none none false none none

/-- Object schema whose patternProperties map holds the entries `a ↦ string`
and `b ↦ integer`, iterated in that order. -/
def exPatternAB : JsonSchema := .mk none none none (some "object") none none none none
  (some [("a", exStr), ("b", exInt)]) false none none

/-- The same patternProperties map as `exPatternAB` — the same set of entries,
hence the same schema document — iterated in the opposite order, as a Rust
`HashMap` with a different seed may do. -/
def exPatternBA : JsonSchema := .mk none none none (some "object") none none none none
  (some [("b", exInt), ("a", exStr)]) false none none

/-- Reference naming taken from the spec's words, for comparison with the
implementation's `refName`: the final `/`-delimited segment of the `$ref`
string, with any trailing `.`-suffix stripped, converted to PascalCase. -/
def specRefName (ref : String) : String :=
  toPascalCase (String.mk
    (((ref.data.reverse.takeWhile (fun c => c != '/')).reverse).takeWhile (fun c => c != '.')))

theorem fromSchema_ref_eq (i sr de : Option String) (ty : Option String)
    (props : Option (List (String × JsonSchema))) (req : Option (List String))
    (defs : Option (List (String × JsonSchema))) (items : Option JsonSchema)
    (pp : Option (List (String × JsonSchema))) (ap : Bool)
    (oneOf : Option (List JsonSchema)) (ref name : String) :
    fromSchema (.mk i sr de ty props req defs items pp ap (some ref) oneOf) name =
      .ok (.Ref (refName ref), []) := rfl

theorem fromSchema_oneof_eq (i sr de : Option String) (ty : Option String)
    (props : Option (List (String × JsonSchema))) (req : Option (List String))
    (defs : Option (List (String × JsonSchema))) (items : Option JsonSchema)
    (pp : Option (List (String × JsonSchema))) (ap : Bool)
    (l : List JsonSchema) (name : String) :
    fromSchema (.mk i sr de ty props req defs items pp ap none (some l)) name =
      match fromSchemaVariants name l with
      | .error e => .error e
      | .ok (vs, d) => .ok (.Enum (.mk name vs), d) := rfl

theorem fromSchema_array_eq (i sr de : Option String)
    (props : Option (List (String × JsonSchema))) (req : Option (List String))
    (defs : Option (List (String × JsonSchema))) (items : Option JsonSchema)
    (pp : Option (List (String × JsonSchema))) (ap : Bool) (name : String) :
    fromSchema (.mk i sr de (some "array") props req defs items pp ap none none) name =
      match items with
      | some itemSchema =>
        (match fromSchema itemSchema (toSingular name) with
         | .error e => .error e
         | .ok (sub, d) => .ok (.Arr sub, d))
      | none => .error (toSingular name ++ " is an array but no schema is set for items") := by
  conv_lhs => rw [fromSchema.eq_def]
  rfl

theorem fromSchema_pattern_eq (i sr de : Option String)
    (props : Option (List (String × JsonSchema))) (req : Option (List String))
    (defs : Option (List (String × JsonSchema))) (items : Option JsonSchema)
    (ppEntries : List (String × JsonSchema)) (ap : Bool) (name : String) :
    fromSchema (.mk i sr de (some "object") props req defs items (some ppEntries) ap none none) name =
      match ppEntries with
      | [] => .error "called `Option::unwrap()` on a `None` value"
      | (_, subSchema) :: _ =>
        (match fromSchema subSchema name with
         | .error e => .error e
         | .ok (sub, d) => .ok (.Map sub, d)) := by
  conv_lhs => rw [fromSchema.eq_def]
  rfl

theorem fromSchema_object_eq (i sr de : Option String)
    (props : Option (List (String × JsonSchema))) (req : Option (List String))
    (defs : Option (List (String × JsonSchema))) (items : Option JsonSchema)
    (ap : Bool) (name : String) :
    fromSchema (.mk i sr de (some "object") props req defs items none ap none none) name =
      match props with
      | none => .error "Failed to get sub object for object"
      | some p =>
        (match fromSchemaFields name req p with
         | .error e => .error e
         | .ok (fs, d) =>
           .ok (.Obj (.mk name fs),
             (if p.isEmpty then
               [name ++ " is an object but has no properties. Likely an error."]
              else []) ++ d)) := by
  conv_lhs => rw [fromSchema.eq_def]
  rfl

theorem forall₂_exists_of_mem_left {α β : Type} {R : α → β → Prop} :
    ∀ {l₁ : List α} {l₂ : List β}, List.Forall₂ R l₁ l₂ → ∀ {a : α}, a ∈ l₁ → ∃ b, R a b := by
  intro l₁ l₂ hf
  induction hf with
  | nil => intro a ha; exact absurd ha (by simp)
  | cons hr _ ih =>
    intro a ha
    rcases List.mem_cons.mp ha with rfl | hmem
    · exact ⟨_, hr⟩
    · exact ih hmem

theorem fromSchema_ne_optional (s : JsonSchema) (name : String) (x : PropType)
    (d : List String) : fromSchema s name ≠ .ok (.Optional x, d) := by
  obtain ⟨i, sr, de, ty, props, req, defs, items, pp, ap, dref, oneOf⟩ := s
  rw [fromSchema.eq_def]
  dsimp only
  repeat' split
  all_goals simp

theorem fromSchema_ok_not_optional (s : JsonSchema) (name : String) (t : PropType)
    (d : List String) (h : fromSchema s name = .ok (t, d)) : t.isOptional = false := by
  cases t <;> first
    | rfl
    | exact absurd h (fromSchema_ne_optional s name _ d)

theorem fromSchemaFields_spec (name : String) (req : Option (List String)) :
    ∀ (ps : List (String × JsonSchema)) (fs : List JsonObjectFieldInfo) (d : List String),
      fromSchemaFields name req ps = .ok (fs, d) →
      List.Forall₂ (fun (p : String × JsonSchema) (f : JsonObjectFieldInfo) =>
        f.name = (fieldNameRename p.1).1 ∧
        f.rename = (fieldNameRename p.1).2 ∧
        f.ty.isOptional = !(isRequired req p.1) ∧
        ∃ t₀ d₀, fromSchema p.2 (name ++ toPascalCase p.1) = .ok (t₀, d₀) ∧
          f.ty = (if isRequired req p.1 then t₀ else .Optional t₀)) ps fs := by
  intro ps
  induction ps with
  | nil =>
    intro fs d h
    rw [fromSchemaFields] at h
    simp only [Except.ok.injEq, Prod.mk.injEq] at h
    rw [← h.1]
    exact List.Forall₂.nil
  | cons hd tl ih =>
    obtain ⟨origName, p⟩ := hd
    intro fs d h
    rw [fromSchemaFields] at h
    cases hrec : fromSchema p (name ++ toPascalCase origName) with
    | error e => simp [hrec] at h
    | ok pr =>
      obtain ⟨t₀, d₁⟩ := pr
      simp only [hrec] at h
      cases htl : fromSchemaFields name req tl with
      | error e => simp [htl] at h
      | ok prtl =>
        obtain ⟨fsTl, d₂⟩ := prtl
        simp only [htl, Except.ok.injEq, Prod.mk.injEq] at h
        rw [← h.1]
        refine List.Forall₂.cons ?_ (ih fsTl d₂ htl)
        refine ⟨rfl, rfl, ?_, t₀, d₁, hrec, ?_⟩
        · cases req with
          | none => simp [isRequired, JsonObjectFieldInfo.ty, PropType.isOptional]
          | some reqList =>
            by_cases hc : origName ∈ reqList
            · have hcc : reqList.contains origName = true := by simpa using hc
              have hno := fromSchema_ok_not_optional p (name ++ toPascalCase origName) t₀ d₁ hrec
              simp [isRequired, hcc, hc, JsonObjectFieldInfo.ty, hno]
            · have hcc : reqList.contains origName = false := by simpa using hc
              simp [isRequired, hcc, hc, JsonObjectFieldInfo.ty, PropType.isOptional]
        · cases req with
          | none => simp [isRequired, JsonObjectFieldInfo.ty]
          | some reqList =>
            by_cases hc : origName ∈ reqList
            · have hcc : reqList.contains origName = true := by simpa using hc
              simp [isRequired, hcc, hc, JsonObjectFieldInfo.ty]
            · have hcc : reqList.contains origName = false := by simpa using hc
              simp [isRequired, hcc, hc, JsonObjectFieldInfo.ty]

theorem fromSchemaVariants_spec (name : String) :
    ∀ (l : List JsonSchema) (vs : List JsonEnumVariant) (d : List String),
      fromSchemaVariants name l = .ok (vs, d) →
      List.Forall₂ (fun (o : JsonSchema) (v : JsonEnumVariant) =>
        ∃ bid, o.id = some bid ∧ v.name = name ++ toPascalCase bid ∧
          ∃ d₀, fromSchema o v.name = .ok (v.inner, d₀)) l vs := by
  intro l
  induction l with
  | nil =>
    intro vs d h
    rw [fromSchemaVariants] at h
    simp only [Except.ok.injEq, Prod.mk.injEq] at h
    rw [← h.1]
    exact List.Forall₂.nil
  | cons hd tl ih =>
    intro vs d h
    rw [fromSchemaVariants] at h
    cases hid : hd.id with
    | none => simp [hid] at h
    | some bid =>
      simp only [hid] at h
      cases hrec : fromSchema hd (name ++ toPascalCase bid) with
      | error e => simp [hrec] at h
      | ok pr =>
        obtain ⟨inner, d₁⟩ := pr
        simp only [hrec] at h
        cases htl : fromSchemaVariants name tl with
        | error e => simp [htl] at h
        | ok prtl =>
          obtain ⟨vsTl, d₂⟩ := prtl
          simp only [htl, Except.ok.injEq, Prod.mk.injEq] at h
          rw [← h.1]
          refine List.Forall₂.cons ?_ (ih vsTl d₂ htl)
          exact ⟨bid, hid, rfl, d₁, by
            simpa [JsonEnumVariant.name, JsonEnumVariant.inner] using hrec⟩

/-- Claim C1: for every object schema (declared type "object", no
patternProperties) and context name, when resolution succeeds it yields an
Object whose fields correspond one-to-one and in order to the declared
properties; a property whose original name appears in the schema's required
list yields a non-Optional field, every other declared property yields an
Optional field, and when the schema has no required list at all every field
is Optional. -/
theorem claim_c1 (s : JsonSchema) (name : String) (ps : List (String × JsonSchema))
    (href : s.definition_ref = none) (hone : s.one_of = none)
    (hty : s.ty = some "object") (hpp : s.pattern_properties = none)
    (hprops : s.properties = some ps)
    (t : PropType) (d : List String) (h : fromSchema s name = .ok (t, d)) :
    ∃ fs, t = .Obj (.mk name fs) ∧
      List.Forall₂ (fun (p : String × JsonSchema) (f : JsonObjectFieldInfo) =>
        (∀ reqList, s.required = some reqList →
          ((p.1 ∈ reqList → f.ty.isOptional = false) ∧
           (p.1 ∉ reqList → f.ty.isOptional = true))) ∧
        (s.required = none → f.ty.isOptional = true)) ps fs := by
  obtain ⟨i, sr, de, ty, props, req, defs, items, pp, ap, dref, oneOf⟩ := s
  simp only [JsonSchema.definition_ref] at href
  simp only [JsonSchema.one_of] at hone
  simp only [JsonSchema.ty] at hty
  simp only [JsonSchema.pattern_properties] at hpp
  simp only [JsonSchema.properties] at hprops
  subst href hone hty hpp hprops
  simp only [JsonSchema.required]
  rw [fromSchema_object_eq] at h
  cases hf : fromSchemaFields name req ps with
  | error e => simp [hf] at h
  | ok pr =>
    obtain ⟨fs, d₂⟩ := pr
    simp only [hf, Except.ok.injEq, Prod.mk.injEq] at h
    refine ⟨fs, h.1.symm, ?_⟩
    refine List.Forall₂.imp ?_ (fromSchemaFields_spec name req ps fs d₂ hf)
    rintro ⟨origName, p⟩ f hrel
    obtain ⟨-, -, hopt, -⟩ := hrel
    constructor
    · intro reqList hreq
      subst hreq
      constructor
      · intro hmem
        simpa [isRequired, hmem] using hopt
      · intro hmem
        simpa [isRequired, hmem] using hopt
    · intro hreq
      subst hreq
      simpa [isRequired] using hopt

/-- Witness for claim C1 at the object schema with properties `a`, `b` and
required list `["a"]`. -/
theorem claim_c1_witness :
    fromSchema exObjReq "Ctx" =
      .ok (.Obj (.mk "Ctx" [.mk "a" PropType.Str none,
        .mk "b" (PropType.Optional .Str) none]), []) ∧
    (∃ fs, PropType.Obj (.mk "Ctx" [.mk "a" PropType.Str none,
        .mk "b" (PropType.Optional .Str) none]) = .Obj (.mk "Ctx" fs) ∧
      List.Forall₂ (fun (p : String × JsonSchema) (f : JsonObjectFieldInfo) =>
        (∀ reqList, exObjReq.required = some reqList →
          ((p.1 ∈ reqList → f.ty.isOptional = false) ∧
           (p.1 ∉ reqList → f.ty.isOptional = true))) ∧
        (exObjReq.required = none → f.ty.isOptional = true))
        [("a", exStr), ("b", exStr)] fs) :=
  ⟨rfl, claim_c1 exObjReq "Ctx" [("a", exStr), ("b", exStr)] rfl rfl rfl rfl rfl
    (.Obj (.mk "Ctx" [.mk "a" PropType.Str none, .mk "b" (PropType.Optional .Str) none]))
    [] rfl⟩

/-- Claim C2, as stated, is false: the source splits the reference string on
the two-character pattern `"#/"`, not on `/`, so the name is the PascalCased
text after the last `"#/"`, which for `#/definitions/house_pet` is
`DefinitionsHousePet` and not the spec's `HousePet` (the PascalCase of the
final `/`-delimited segment, computed here as `specRefName`). -/
theorem claim_c2_counterexample :
    fromSchema exRefHousePet "X" = .ok (.Ref "DefinitionsHousePet", []) ∧
    specRefName "#/definitions/house_pet" = "HousePet" ∧
    ("DefinitionsHousePet" : String) ≠ "HousePet" :=
  ⟨rfl, by decide, by decide⟩

/-- Claim C2 (amended): for every schema node whose reference string is
present, resolution produces a Reference node whose name is the text after the
last occurrence of `"#/"` (the whole string when the pattern does not occur),
truncated before its first `.`, converted to PascalCase; in particular
`#/definitions/house_pet` yields `DefinitionsHousePet`. -/
theorem claim_c2_amended :
    (∀ (s : JsonSchema) (name ref : String), s.definition_ref = some ref →
      fromSchema s name = .ok (.Ref (toPascalCase (String.mk
        ((afterRefSplit ref.data).takeWhile (fun c => c != '.')))), [])) ∧
    refName "#/definitions/house_pet" = "DefinitionsHousePet" := by
  constructor
  · intro s name ref h
    obtain ⟨i, sr, de, ty, props, req, defs, items, pp, ap, dref, oneOf⟩ := s
    simp only [JsonSchema.definition_ref] at h
    subst h
    exact fromSchema_ref_eq i sr de ty props req defs items pp ap oneOf ref name
  · decide

/-- Witness for the amended claim C2 at the `#/definitions/house_pet`
reference schema. -/
theorem claim_c2_witness :
    fromSchema exRefHousePet "X" =
      .ok (.Ref (toPascalCase (String.mk
        ((afterRefSplit ("#/definitions/house_pet").data).takeWhile (fun c => c != '.')))), []) :=
  claim_c2_amended.1 exRefHousePet "X" "#/definitions/house_pet" rfl

/-- Claim C3: whenever a reference string is present, resolution returns a
Reference node — regardless of any oneOf list, declared type, properties or
items also carried by the node — and performs no recursive resolution: the
result is exactly `Ref (refName ref)` with no sub-nodes and no diagnostics. -/
theorem claim_c3 (s : JsonSchema) (name ref : String)
    (h : s.definition_ref = some ref) :
    fromSchema s name = .ok (.Ref (refName ref), []) := by
  obtain ⟨i, sr, de, ty, props, req, defs, items, pp, ap, dref, oneOf⟩ := s
  simp only [JsonSchema.definition_ref] at h
  subst h
  exact fromSchema_ref_eq i sr de ty props req defs items pp ap oneOf ref name

/-- Witness for claim C3 at a schema that carries a reference together with a
oneOf list, a declared object type, properties and items. -/
theorem claim_c3_witness :
    exRefEverything.one_of = some [exStr] ∧
    exRefEverything.ty = some "object" ∧
    exRefEverything.items = some exStr ∧
    fromSchema exRefEverything "X" = .ok (.Ref (refName "#/definitions/user"), []) :=
  ⟨rfl, rfl, rfl, claim_c3 exRefEverything "X" "#/definitions/user" rfl⟩

/-- Claim C4: for a schema without a reference but with a oneOf list, each
branch carrying an id, a successful resolution yields an Enum named by the
context name whose variants correspond one-to-one and in declared order to the
branches; each variant is named `name ++ toPascalCase branchId` and its inner
type is the branch schema resolved under that variant name. -/
theorem claim_c4 (s : JsonSchema) (name : String) (l : List JsonSchema)
    (href : s.definition_ref = none) (hone : s.one_of = some l)
    (_hids : ∀ o ∈ l, (JsonSchema.id o).isSome = true)
    (t : PropType) (d : List String) (h : fromSchema s name = .ok (t, d)) :
    ∃ vs, t = .Enum (.mk name vs) ∧ vs.length = l.length ∧
      List.Forall₂ (fun (o : JsonSchema) (v : JsonEnumVariant) =>
        ∃ bid, o.id = some bid ∧ v.name = name ++ toPascalCase bid ∧
          ∃ d₀, fromSchema o v.name = .ok (v.inner, d₀)) l vs := by
  obtain ⟨i, sr, de, ty, props, req, defs, items, pp, ap, dref, oneOf⟩ := s
  simp only [JsonSchema.definition_ref] at href
  simp only [JsonSchema.one_of] at hone
  subst href hone
  rw [fromSchema_oneof_eq] at h
  cases hv : fromSchemaVariants name l with
  | error e => simp [hv] at h
  | ok pr =>
    obtain ⟨vs, d₂⟩ := pr
    simp only [hv, Except.ok.injEq, Prod.mk.injEq] at h
    have hsp := fromSchemaVariants_spec name l vs d₂ hv
    exact ⟨vs, h.1.symm, hsp.length_eq.symm, hsp⟩

/-- Witness for claim C4 at the two-branch oneOf schema with branch ids
`foo_bar` and `baz`. -/
theorem claim_c4_witness :
    fromSchema exOneOf "Ctx" =
      .ok (.Enum (.mk "Ctx" [.mk "CtxFooBar" PropType.Str, .mk "CtxBaz" PropType.Int]), []) ∧
    (∃ vs, PropType.Enum (.mk "Ctx" [.mk "CtxFooBar" PropType.Str, .mk "CtxBaz" PropType.Int]) =
        .Enum (.mk "Ctx" vs) ∧
      vs.length = [exBranchFooBar, exBranchBaz].length ∧
      List.Forall₂ (fun (o : JsonSchema) (v : JsonEnumVariant) =>
        ∃ bid, o.id = some bid ∧ v.name = "Ctx" ++ toPascalCase bid ∧
          ∃ d₀, fromSchema o v.name = .ok (v.inner, d₀))
        [exBranchFooBar, exBranchBaz] vs) := by
  have hids : ∀ o ∈ [exBranchFooBar, exBranchBaz], (JsonSchema.id o).isSome = true := by
    intro o ho
    rcases List.mem_cons.mp ho with rfl | ho
    · rfl
    rcases List.mem_cons.mp ho with rfl | ho
    · rfl
    · exact absurd ho (by simp)
  exact ⟨rfl, claim_c4 exOneOf "Ctx" [exBranchFooBar, exBranchBaz] rfl rfl hids
    (.Enum (.mk "Ctx" [.mk "CtxFooBar" PropType.Str, .mk "CtxBaz" PropType.Int])) [] rfl⟩

/-- Claim C5: for a schema of declared type "array" (no reference, no oneOf),
if an items schema is present the result is an Array node wrapping the items
schema resolved under `toSingular name`, and if items is absent resolution
fails fatally with the message naming the singularized context path. -/
theorem claim_c5 (s : JsonSchema) (name : String)
    (href : s.definition_ref = none) (hone : s.one_of = none)
    (hty : s.ty = some "array") :
    (∀ itemSchema, s.items = some itemSchema →
      fromSchema s name =
        match fromSchema itemSchema (toSingular name) with
        | .error e => .error e
        | .ok (sub, d) => .ok (.Arr sub, d)) ∧
    (s.items = none →
      fromSchema s name =
        .error (toSingular name ++ " is an array but no schema is set for items")) := by
  obtain ⟨i, sr, de, ty, props, req, defs, items, pp, ap, dref, oneOf⟩ := s
  simp only [JsonSchema.definition_ref] at href
  simp only [JsonSchema.one_of] at hone
  simp only [JsonSchema.ty] at hty
  subst href hone hty
  constructor
  · intro itemSchema hit
    simp only [JsonSchema.items] at hit
    subst hit
    exact fromSchema_array_eq i sr de props req defs (some itemSchema) pp ap name
  · intro hit
    simp only [JsonSchema.items] at hit
    subst hit
    exact fromSchema_array_eq i sr de props req defs none pp ap name

/-- Witness for claim C5: an array of strings under context `channels`
resolves to an Array node, and the same schema without items fails with the
message naming the singular `channel`. -/
theorem claim_c5_witness :
    fromSchema exArr "channels" = .ok (.Arr PropType.Str, []) ∧
    fromSchema exArrNoItems "channels" =
      .error "channel is an array but no schema is set for items" :=
  ⟨((claim_c5 exArr "channels" rfl rfl rfl).1 exStr rfl).trans rfl,
   ((claim_c5 exArrNoItems "channels" rfl rfl rfl).2 rfl).trans rfl⟩

/-- Claim C6: the object schema with the single string property `type` and
required list `["type"]` resolves to an Object with one field whose internal
identifier `ty` differs from `type`, whose type is the bare (non-Optional)
string type, and whose rename metadata records the original name `type`. -/
theorem claim_c6 :
    fromSchema c6Schema "Ctx" =
      .ok (.Obj (.mk "Ctx" [.mk "ty" PropType.Str (some "type")]), []) ∧
    ("ty" : String) ≠ "type" ∧
    PropType.Str.isOptional = false :=
  ⟨rfl, by decide, rfl⟩

/-- Claim C7: an object schema whose properties map is present but empty (and
without patternProperties) does not fail: it yields an Object with zero fields
and exactly one diagnostic. -/
theorem claim_c7 (s : JsonSchema) (name : String)
    (href : s.definition_ref = none) (hone : s.one_of = none)
    (hty : s.ty = some "object") (hpp : s.pattern_properties = none)
    (hprops : s.properties = some []) :
    fromSchema s name = .ok (.Obj (.mk name []),
      [name ++ " is an object but has no properties. Likely an error."]) := by
  obtain ⟨i, sr, de, ty, props, req, defs, items, pp, ap, dref, oneOf⟩ := s
  simp only [JsonSchema.definition_ref] at href
  simp only [JsonSchema.one_of] at hone
  simp only [JsonSchema.ty] at hty
  simp only [JsonSchema.pattern_properties] at hpp
  simp only [JsonSchema.properties] at hprops
  subst href hone hty hpp hprops
  rw [fromSchema_object_eq]
  rfl

/-- Witness for claim C7 at the empty-properties object schema. -/
theorem claim_c7_witness :
    exEmptyObj.properties = some [] ∧
    fromSchema exEmptyObj "E" = .ok (.Obj (.mk "E" []),
      ["E is an object but has no properties. Likely an error."]) :=
  ⟨rfl, claim_c7 exEmptyObj "E" rfl rfl rfl rfl rfl⟩

/-- Claim C8, as stated, is false: resolution is not invariant under the
iteration order of the patternProperties map.  `exPatternAB` and `exPatternBA`
hold the same set of entries — the same schema document, whose Rust `HashMap`
iteration order depends on a per-map random seed — yet resolve to Map nodes
with different value types, because only the first iterated entry is used. -/
theorem claim_c8_counterexample :
    exPatternAB.pattern_properties = some [("a", exStr), ("b", exInt)] ∧
    exPatternBA.pattern_properties = some [("b", exInt), ("a", exStr)] ∧
    List.Perm [("a", exStr), ("b", exInt)] [("b", exInt), ("a", exStr)] ∧
    fromSchema exPatternAB "M" = .ok (.Map PropType.Str, []) ∧
    fromSchema exPatternBA "M" = .ok (.Map PropType.Int, []) ∧
    fromSchema exPatternAB "M" ≠ fromSchema exPatternBA "M" := by
  refine ⟨rfl, rfl, List.Perm.swap _ _ _, rfl, rfl, ?_⟩
  intro hEq
  rw [show fromSchema exPatternAB "M" = .ok (.Map PropType.Str, []) from rfl,
      show fromSchema exPatternBA "M" = .ok (.Map PropType.Int, []) from rfl] at hEq
  simp at hEq

/-- Claim C8 (amended): resolution is a deterministic function of the
deserialized schema value together with its maps' iteration order — for a
patternProperties map it uses exactly the first entry in iteration order — but
it is not invariant under reordering the entries of that map, so two runs that
iterate the same document's map in different orders may produce different Type
Models. -/
theorem claim_c8_amended (s : JsonSchema) (name k : String) (v : JsonSchema)
    (rest : List (String × JsonSchema))
    (href : s.definition_ref = none) (hone : s.one_of = none)
    (hty : s.ty = some "object") (hpp : s.pattern_properties = some ((k, v) :: rest)) :
    fromSchema s name =
      match fromSchema v name with
      | .error e => .error e
      | .ok (sub, d) => .ok (.Map sub, d) := by
  obtain ⟨i, sr, de, ty, props, req, defs, items, pp, ap, dref, oneOf⟩ := s
  simp only [JsonSchema.definition_ref] at href
  simp only [JsonSchema.one_of] at hone
  simp only [JsonSchema.ty] at hty
  simp only [JsonSchema.pattern_properties] at hpp
  subst href hone hty hpp
  exact fromSchema_pattern_eq i sr de props req defs items ((k, v) :: rest) ap name

/-- Witness for the amended claim C8: the first iterated pattern-property
entry of `exPatternAB` determines the Map value type. -/
theorem claim_c8_witness :
    fromSchema exPatternAB "M" = .ok (.Map PropType.Str, []) :=
  (claim_c8_amended exPatternAB "M" "a" exStr [("b", exInt)] rfl rfl rfl rfl).trans rfl

/-- Claim C9: an object schema (no patternProperties) whose properties field
is entirely absent fails fatally, with the `expect` message of the source —
a fatal case beyond the two fatal errors of the spec's error-handling section,
and one whose message does not name the context path. -/
theorem claim_c9 (s : JsonSchema) (name : String)
    (href : s.definition_ref = none) (hone : s.one_of = none)
    (hty : s.ty = some "object") (hpp : s.pattern_properties = none)
    (hprops : s.properties = none) :
    fromSchema s name = .error "Failed to get sub object for object" := by
  obtain ⟨i, sr, de, ty, props, req, defs, items, pp, ap, dref, oneOf⟩ := s
  simp only [JsonSchema.definition_ref] at href
  simp only [JsonSchema.one_of] at hone
  simp only [JsonSchema.ty] at hty
  simp only [JsonSchema.pattern_properties] at hpp
  simp only [JsonSchema.properties] at hprops
  subst href hone hty hpp hprops
  rw [fromSchema_object_eq]

/-- Witness for claim C9 at the object schema with no properties field. -/
theorem claim_c9_witness :
    exNoProps.properties = none ∧
    fromSchema exNoProps "X" = .error "Failed to get sub object for object" :=
  ⟨rfl, claim_c9 exNoProps "X" rfl rfl rfl rfl rfl⟩

/-- Claim C10: a schema carrying a oneOf list in which some branch lacks an id
always fails fatally (the `unwrap` of the branch id panics while synthesizing
the variant name, or an earlier branch already panics); no positional or
fallback name is ever substituted. -/
theorem claim_c10 (s : JsonSchema) (name : String) (l : List JsonSchema)
    (href : s.definition_ref = none) (hone : s.one_of = some l)
    (hbad : ∃ o ∈ l, o.id = none) :
    ∃ e, fromSchema s name = .error e := by
  obtain ⟨i, sr, de, ty, props, req, defs, items, pp, ap, dref, oneOf⟩ := s
  simp only [JsonSchema.definition_ref] at href
  simp only [JsonSchema.one_of] at hone
  subst href hone
  rw [fromSchema_oneof_eq]
  cases hv : fromSchemaVariants name l with
  | error e => exact ⟨e, rfl⟩
  | ok pr =>
    obtain ⟨vs, d₂⟩ := pr
    obtain ⟨o, hmem, hid⟩ := hbad
    have hsp := fromSchemaVariants_spec name l vs d₂ hv
    obtain ⟨v, bid, hbid, -⟩ := forall₂_exists_of_mem_left hsp hmem
    rw [hid] at hbid
    exact absurd hbid (by simp)

/-- Witness for claim C10 at the oneOf schema whose second branch lacks an
id. -/
theorem claim_c10_witness :
    exBranchNoId.id = none ∧
    (∃ e, fromSchema exOneOfNoId "Ctx" = .error e) := by
  refine ⟨rfl, claim_c10 exOneOfNoId "Ctx" [exBranchFooBar, exBranchNoId] rfl rfl ?_⟩
  exact ⟨exBranchNoId, by simp, rfl⟩
